import Mathlib

/-!
Verification of the geolocation / calibration subsystem of the xsar
repository (files `src/xsar/radarsat2_meta.py`, `src/xsar/sentinel1_dataset.py`).

Numbers are embedded as exact rationals (`ℚ`); the one genuinely real-valued
operation of the code (`np.sqrt` in `reverse_calibration_lut`) is embedded
through `Real.sqrt`.  Arrays are lists, elementwise numpy operations are
`List.map`/`List.zipWith`, and numpy not-a-number results are `Option.none`.
-/

/-! ## Affine transform (`manifest_attrs['approx_transform']`, a rasterio `Affine`)

`approx_transform * (line, sample) = (lon, lat)` and `~approx_transform` is its
inverse.  The six coefficients map as in `rasterio.transform`:
`lon = a*line + b*sample + c`, `lat = d*line + e*sample + f`. -/

structure AffineT where
  a : ℚ
  b : ℚ
  c : ℚ
  d : ℚ
  e : ℚ
  f : ℚ
deriving DecidableEq

/-- Forward application `transform * (line, sample)` of a rasterio affine. -/
def AffineT.applyTo (t : AffineT) (p : ℚ × ℚ) : ℚ × ℚ :=
  (t.a * p.1 + t.b * p.2 + t.c, t.d * p.1 + t.e * p.2 + t.f)

/-- Determinant of the linear part of the affine transform. -/
def AffineT.det (t : AffineT) : ℚ :=
  t.a * t.e - t.b * t.d

/-- Inverse application `~transform * (lon, lat)`: the unique solution of the
2x2 linear system when `det ≠ 0` (rasterio `Affine.__invert__` composed with
application; written as the closed-form solution). -/
def AffineT.invApply (t : AffineT) (p : ℚ × ℚ) : ℚ × ℚ :=
  ((t.e * (p.1 - t.c) - t.b * (p.2 - t.f)) / t.det,
   (t.a * (p.2 - t.f) - t.d * (p.1 - t.c)) / t.det)

/-- Sanity lemma (not a claim theorem): the inverse application really inverts
the forward application whenever the determinant is nonzero. -/
theorem AffineT.invApply_applyTo (t : AffineT) (p : ℚ × ℚ) (h : t.det ≠ 0) :
    t.invApply (t.applyTo p) = p := by
  have hd : t.a * t.e - t.b * t.d ≠ 0 := h
  obtain ⟨p1, p2⟩ := p
  unfold AffineT.invApply AffineT.applyTo AffineT.det
  field_simp
  constructor <;> ring

/-! ## Ground control grid and bilinear spline (`RadarSat2Meta.geoloc`)

`_dict_coords2ll` builds `RectBivariateSpline(idx_line, idx_sample, values,
kx=1, ky=1)` for longitude and latitude: a degree-1 tensor-product spline,
i.e. piecewise-bilinear interpolation of the grid values; outside the knot
span FITPACK evaluates the polynomial of the boundary cell (linear
extrapolation), which the cell-index clamping below reproduces. -/

/-- Index of the knot cell used to evaluate a degree-1 spline at `x`:
the cell `[knots[i], knots[i+1])` containing `x`, clamped to the boundary
cells outside the knot span. -/
def cellIndex (knots : List ℚ) (x : ℚ) : ℕ :=
  min (knots.countP (fun k => decide (k ≤ x))) (knots.length - 1) - 1

/-- Evaluation of `RectBivariateSpline(xs, ys, z, kx=1, ky=1)` at `(x, y)`:
bilinear interpolation inside the selected cell. -/
def evalBilin (xs ys : List ℚ) (z : List (List ℚ)) (x y : ℚ) : ℚ :=
  let i := cellIndex xs x
  let j := cellIndex ys y
  let x0 := xs.getD i 0
  let x1 := xs.getD (i + 1) 0
  let y0 := ys.getD j 0
  let y1 := ys.getD (j + 1) 0
  let z00 := (z.getD i []).getD j 0
  let z01 := (z.getD i []).getD (j + 1) 0
  let z10 := (z.getD (i + 1) []).getD j 0
  let z11 := (z.getD (i + 1) []).getD (j + 1) 0
  let tx := (x - x0) / (x1 - x0)
  let ty := (y - y0) / (y1 - y0)
  (1 - tx) * ((1 - ty) * z00 + ty * z01) + tx * ((1 - ty) * z10 + ty * z11)

/-- Maximum of a list of rationals (`np.max`); 0 on the empty list. -/
def listMax : List ℚ → ℚ
  | [] => 0
  | x :: xs => xs.foldl max x

/-- Minimum of a list of rationals (`np.min`); 0 on the empty list. -/
def listMin : List ℚ → ℚ
  | [] => 0
  | x :: xs => xs.foldl min x

/-- The state of a `RadarSat2Meta` object that the coordinate transforms read
and (through `_dict_coords2ll`) write: the geolocation grid
(`geoloc.line`, `geoloc.pixel`, `geoloc['longitude']`, `geoloc['latitude']`,
rows indexed by line) and the affine `approx_transform` derived from it. -/
structure RS2Meta where
  lines : List ℚ
  samples : List ℚ
  lonGrid : List (List ℚ)
  latGrid : List (List ℚ)
  approx : AffineT
deriving DecidableEq

/-- `RadarSat2Meta.cross_antemeridian`: true iff
`np.max(geoloc['longitude']) - np.min(geoloc['longitude']) > 180`. -/
def cross_antemeridian (m : RS2Meta) : Bool :=
  decide (listMax m.lonGrid.flatten - listMin m.lonGrid.flatten > 180)

/-- Floating-point `x % 360` of numpy (result in `[0, 360)`, sign of the
divisor), on exact rationals. -/
def qmod360 (x : ℚ) : ℚ :=
  x - 360 * ⌊x / 360⌋

/-- Modelled from the spec: `to_lon180` is imported from `xsar/utils.py`,
which is not part of the provided sources.  The spec states that result
longitudes are "normalized back into [-180,180)"; this is that normalization
(the representative of `lon` modulo 360 lying in `[-180, 180)`). -/
def to_lon180 (lon : ℚ) : ℚ :=
  qmod360 (lon + 180) - 180

/-- State effect of the `_dict_coords2ll` property on `self.geoloc`:
the property aliases `geoloc = self.geoloc` and, when `self.cross_antemeridian`
holds, executes `geoloc['longitude'] = geoloc['longitude'] % 360`, an in-place
update of the stored longitude grid.  The returned meta is the state of
`self` after the property has been evaluated. -/
def geolocMod (m : RS2Meta) : RS2Meta :=
  if cross_antemeridian m then
    { m with lonGrid := m.lonGrid.map (fun row => row.map qmod360) }
  else m

/-- Pointwise value of `RadarSat2Meta.coords2ll(line, sample, to_grid=False,
approx=False)` (the default, non-geometry path): evaluate both splines built
by `_dict_coords2ll` (which first applies its `geoloc` update), then re-check
`self.cross_antemeridian` on the updated state and normalize the longitude
with `to_lon180` if it still holds. -/
def coords2ll_ev (m : RS2Meta) (line sample : ℚ) : ℚ × ℚ :=
  let m2 := geolocMod m
  let lon := evalBilin m2.lines m2.samples m2.lonGrid line sample
  let lat := evalBilin m2.lines m2.samples m2.latGrid line sample
  if cross_antemeridian m2 then (to_lon180 lon, lat) else (lon, lat)

/-- `RadarSat2Meta.ll2coords(lon, lat)` on a non-geometry input:
invert the approximate transform, forward-map through `coords2ll`, invert
again, and subtract the observed error from the first approximation. -/
def ll2coords (m : RS2Meta) (lon lat : ℚ) : ℚ × ℚ :=
  let line_approx := (m.approx.invApply (lon, lat)).1
  let sample_approx := (m.approx.invApply (lon, lat)).2
  let idll := coords2ll_ev m line_approx sample_approx
  let line_identity := (m.approx.invApply idll).1
  let sample_identity := (m.approx.invApply idll).2
  let line_error := line_identity - line_approx
  let sample_error := sample_identity - sample_approx
  (line_approx - line_error, sample_approx - sample_error)

/-- C1: for every non-geometry `(lon, lat)`, `ll2coords` performs exactly one
correction pass: it inverts the approximate transform to get
`(line0, sample0)`, forward-maps through the exact pipeline, inverts the
approximate transform again to get `(line1, sample1)`, and returns
`(line0 - (line1 - line0), sample0 - (sample1 - sample0))`; no further
iteration is performed. -/
theorem ll2coords_one_pass (m : RS2Meta) (lon lat : ℚ) :
    ll2coords m lon lat =
      (let p0 := m.approx.invApply (lon, lat)
       let ll1 := coords2ll_ev m p0.1 p0.2
       let p1 := m.approx.invApply ll1
       (p0.1 - (p1.1 - p0.1), p0.2 - (p1.2 - p0.2))) := by
  rfl

/-! ## Round trip of the coordinate transforms (claim C2)

`g = invApply ∘ fwdmap` is the composition "invert the approximate transform
after the exact forward pipeline"; its deviation from the identity is the
local approximation error of the affine transform that the single correction
pass of `ll2coords` is meant to cancel. -/

/-- Forward map through the two exact splines of a meta object (no
antimeridian handling): the pair of `RectBivariateSpline` evaluations. -/
def fwdmap (m : RS2Meta) (p : ℚ × ℚ) : ℚ × ℚ :=
  (evalBilin m.lines m.samples m.lonGrid p.1 p.2,
   evalBilin m.lines m.samples m.latGrid p.1 p.2)

/-- One step of the approximate inverse: exact forward map followed by the
inverse of the approximate affine transform. -/
def gmap (m : RS2Meta) (p : ℚ × ℚ) : ℚ × ℚ :=
  m.approx.invApply (fwdmap m p)

/-- Local error of the approximate transform at `p`: how far the approximate
inverse of the exact forward image of `p` lands from `p` itself. -/
def errField (m : RS2Meta) (p : ℚ × ℚ) : ℚ × ℚ :=
  ((gmap m p).1 - p.1, (gmap m p).2 - p.2)

/-- A `(line, sample)` point inside the knot span of the geolocation grid. -/
def InBounds (m : RS2Meta) (l s : ℚ) : Prop :=
  listMin m.lines ≤ l ∧ l ≤ listMax m.lines ∧
    listMin m.samples ≤ s ∧ s ≤ listMax m.samples

instance (m : RS2Meta) (l s : ℚ) : Decidable (InBounds m l s) := by
  unfold InBounds
  infer_instance

/-- A geolocation grid whose longitude surface is strongly non-affine while
its `approx_transform` is the identity: knots `{0,10} × {0,10}`, corner
longitudes `0, 10, 10, 40`, latitude equal to the sample coordinate. -/
def cexGrid : RS2Meta :=
  { lines := [0, 10]
    samples := [0, 10]
    lonGrid := [[0, 10], [10, 40]]
    latGrid := [[0, 10], [0, 10]]
    approx := ⟨1, 0, 0, 0, 1, 0⟩ }

/-- C2 counterexample: on `cexGrid` the in-bounds point `(5, 5)` round-trips
to `(-5, 5)`, ten pixels away from the original line coordinate, so the
unconditional half-pixel round-trip bound is false on the code. -/
theorem roundtrip_half_pixel_cex :
    InBounds cexGrid 5 5 ∧
    ll2coords cexGrid (coords2ll_ev cexGrid 5 5).1 (coords2ll_ev cexGrid 5 5).2
      = (-5, 5) ∧
    ¬ (|(ll2coords cexGrid (coords2ll_ev cexGrid 5 5).1
          (coords2ll_ev cexGrid 5 5).2).1 - 5| < 1 / 2) := by
  have hev : coords2ll_ev cexGrid 5 5 = (15, 5) := by
    norm_num [coords2ll_ev, geolocMod, cross_antemeridian, listMax, listMin,
      evalBilin, cellIndex, List.flatten, cexGrid]
  have hll : ll2coords cexGrid 15 5 = (-5, 5) := by
    norm_num [ll2coords, coords2ll_ev, geolocMod, cross_antemeridian, listMax,
      listMin, evalBilin, cellIndex, List.flatten, AffineT.invApply, AffineT.det,
      cexGrid]
  refine ⟨by norm_num [InBounds, listMin, listMax, cexGrid], ?_, ?_⟩
  · rw [hev]
    exact hll
  · rw [hev, hll]
    rw [abs_lt]
    norm_num

/-- On a non-crossing meta the `geoloc` state is left untouched by
`_dict_coords2ll`. -/
theorem geolocMod_of_not_cross (m : RS2Meta) (hc : cross_antemeridian m = false) :
    geolocMod m = m := by
  simp [geolocMod, hc]

/-- On a non-crossing meta `coords2ll` is exactly the forward spline map. -/
theorem coords2ll_ev_of_not_cross (m : RS2Meta) (hc : cross_antemeridian m = false)
    (a b : ℚ) : coords2ll_ev m a b = fwdmap m (a, b) := by
  simp [coords2ll_ev, geolocMod_of_not_cross m hc, hc, fwdmap]

/-- C2 (amended): on a non-crossing grid, the round trip
`ll2coords (coords2ll (line, sample))` is within half a pixel of
`(line, sample)` whenever the local approximation-error field varies by less
than half a pixel (in each coordinate) between the approximate solution and
its corrected probe point; the counterexample above shows the unconditional
claim fails for grids violating that local-stability condition. -/
theorem roundtrip_one_pass_bound (m : RS2Meta) (l s : ℚ)
    (hc : cross_antemeridian m = false)
    (hin : InBounds m l s)
    (h1 : |(errField m (l, s)).1 - (errField m (gmap m (l, s))).1| < 1 / 2)
    (h2 : |(errField m (l, s)).2 - (errField m (gmap m (l, s))).2| < 1 / 2) :
    |(ll2coords m (coords2ll_ev m l s).1 (coords2ll_ev m l s).2).1 - l| < 1 / 2 ∧
    |(ll2coords m (coords2ll_ev m l s).1 (coords2ll_ev m l s).2).2 - s| < 1 / 2 := by
  have hev := coords2ll_ev_of_not_cross m hc
  have key : ll2coords m (coords2ll_ev m l s).1 (coords2ll_ev m l s).2
      = (2 * (gmap m (l, s)).1 - (gmap m (gmap m (l, s))).1,
         2 * (gmap m (l, s)).2 - (gmap m (gmap m (l, s))).2) := by
    simp only [ll2coords, hev, gmap, Prod.mk.eta, Prod.mk.injEq]
    constructor <;> ring
  rw [key]
  constructor
  · have hx : 2 * (gmap m (l, s)).1 - (gmap m (gmap m (l, s))).1 - l
        = (errField m (l, s)).1 - (errField m (gmap m (l, s))).1 := by
      simp only [errField]
      ring
    simpa [hx] using h1
  · have hy : 2 * (gmap m (l, s)).2 - (gmap m (gmap m (l, s))).2 - s
        = (errField m (l, s)).2 - (errField m (gmap m (l, s))).2 := by
      simp only [errField]
      ring
    simpa [hy] using h2

/-- A geolocation grid whose splines agree exactly with its identity
`approx_transform` (longitude equals the line and latitude the sample
coordinate), so the local approximation error vanishes. -/
def idMeta : RS2Meta :=
  { lines := [0, 10]
    samples := [0, 10]
    lonGrid := [[0, 0], [10, 10]]
    latGrid := [[0, 10], [0, 10]]
    approx := ⟨1, 0, 0, 0, 1, 0⟩ }

/-- Witness for the amended round-trip bound at a concrete grid and point. -/
theorem roundtrip_one_pass_bound_witness :
    |(ll2coords idMeta (coords2ll_ev idMeta 5 5).1 (coords2ll_ev idMeta 5 5).2).1
        - 5| < 1 / 2 ∧
    |(ll2coords idMeta (coords2ll_ev idMeta 5 5).1 (coords2ll_ev idMeta 5 5).2).2
        - 5| < 1 / 2 :=
  roundtrip_one_pass_bound idMeta 5 5
    (by norm_num [cross_antemeridian, listMax, listMin, List.flatten, idMeta])
    (by norm_num [InBounds, listMin, listMax, idMeta])
    (by norm_num [errField, gmap, fwdmap, evalBilin, cellIndex,
          AffineT.invApply, AffineT.det, idMeta])
    (by norm_num [errField, gmap, fwdmap, evalBilin, cellIndex,
          AffineT.invApply, AffineT.det, idMeta])

/-! ## Antimeridian handling and mutation of the stored grid (claims C7, C9) -/

/-- A geolocation grid whose footprint crosses the antimeridian: corner
longitudes `179` and `-179` (span 358 > 180). -/
def crossGrid : RS2Meta :=
  { lines := [0, 1]
    samples := [0, 1]
    lonGrid := [[179, -179], [179, -179]]
    latGrid := [[10, 10], [11, 11]]
    approx := ⟨1, 0, 0, 0, 1, 0⟩ }

/-- `qmod360` really is a modulus: applying it twice changes nothing. -/
theorem qmod360_idem (x : ℚ) : qmod360 (qmod360 x) = qmod360 x := by
  have h : qmod360 x = 360 * Int.fract (x / 360) := by
    rw [Int.fract]
    unfold qmod360
    ring
  rw [h]
  unfold qmod360
  rw [show (360 : ℚ) * Int.fract (x / 360) / 360 = Int.fract (x / 360) by ring]
  simp [Int.floor_fract]

/-- The longitude rewrite performed by `_dict_coords2ll` on `crossGrid`. -/
theorem geolocMod_crossGrid :
    geolocMod crossGrid = { crossGrid with lonGrid := [[179, 181], [179, 181]] } := by
  have hc : cross_antemeridian crossGrid = true := by
    norm_num [cross_antemeridian, listMax, listMin, List.flatten, crossGrid]
  have hq1 : qmod360 179 = 179 := by norm_num [qmod360]
  have hq2 : qmod360 (-179) = 181 := by norm_num [qmod360]
  simp only [geolocMod, hc, if_true]
  simp [crossGrid, hq1, hq2]

/-- C9 counterexample: on an antimeridian-crossing grid, evaluating the
`_dict_coords2ll` property (hence any `coords2ll` / `ll2coords` call, which
evaluate it) rewrites the stored longitudes of `self.geoloc` in place, so the
grid is not immutable. -/
theorem geoloc_mutated_cex :
    cross_antemeridian crossGrid = true ∧
    (geolocMod crossGrid).lonGrid = [[179, 181], [179, 181]] ∧
    geolocMod crossGrid ≠ crossGrid := by
  refine ⟨?_, ?_, ?_⟩
  · norm_num [cross_antemeridian, listMax, listMin, List.flatten, crossGrid]
  · rw [geolocMod_crossGrid]
  · rw [geolocMod_crossGrid]
    intro h
    have h2 := congrArg RS2Meta.lonGrid h
    simp only [crossGrid] at h2
    norm_num at h2

/-- C9 (amended): the coordinate operations leave the stored grid unchanged
whenever the footprint does not cross the antimeridian; when it does cross,
the only state change is the in-place mod-360 rewrite of the longitude grid
(latitudes, knots and the affine transform are never touched), and that
rewrite is idempotent, so repeated coordinate operations do not change the
state further. -/
theorem geoloc_immutability_amended :
    (∀ m : RS2Meta, cross_antemeridian m = false → geolocMod m = m) ∧
    (∀ m : RS2Meta, (geolocMod m).latGrid = m.latGrid ∧
      (geolocMod m).lines = m.lines ∧ (geolocMod m).samples = m.samples ∧
      (geolocMod m).approx = m.approx) ∧
    (∀ m : RS2Meta, geolocMod (geolocMod m) = geolocMod m) := by
  refine ⟨geolocMod_of_not_cross, ?_, ?_⟩
  · intro m
    unfold geolocMod
    split <;> simp
  · intro m
    cases hc : cross_antemeridian m with
    | false =>
      rw [geolocMod_of_not_cross m hc]
      exact geolocMod_of_not_cross m hc
    | true =>
      unfold geolocMod
      rw [if_pos hc]
      split
      · simp [List.map_map, Function.comp_def, qmod360_idem]
      · rfl

/-- Witness for the amended immutability statement: a concrete non-crossing
grid is preserved exactly, and the crossing grid keeps its latitudes. -/
theorem geoloc_immutability_amended_witness :
    geolocMod idMeta = idMeta ∧
    (geolocMod crossGrid).latGrid = crossGrid.latGrid :=
  ⟨geoloc_immutability_amended.1 idMeta
      (by norm_num [cross_antemeridian, listMax, listMin, List.flatten, idMeta]),
   (geoloc_immutability_amended.2.1 crossGrid).1⟩

/-- C7 failing input: on `crossGrid` the crossing flag is true, yet
`coords2ll(0, 1)` returns longitude `181`, which is not in `[-180, 180)`.
The `_dict_coords2ll` evaluation rewrites the stored longitudes to mod-360
representatives first, after which the re-checked `cross_antemeridian` flag
is false and the `to_lon180` normalization branch is skipped. -/
theorem coords2ll_unnormalized_when_crossing :
    cross_antemeridian crossGrid = true ∧
    (coords2ll_ev crossGrid 0 1).1 = 181 ∧
    ¬ ((coords2ll_ev crossGrid 0 1).1 < 180) := by
  have hval : coords2ll_ev crossGrid 0 1 = (181, 10) := by
    rw [coords2ll_ev, geolocMod_crossGrid]
    norm_num [cross_antemeridian, listMax, listMin, List.flatten, evalBilin,
      cellIndex, crossGrid]
  refine ⟨?_, ?_, ?_⟩
  · norm_num [cross_antemeridian, listMax, listMin, List.flatten, crossGrid]
  · rw [hval]
  · rw [hval]
    norm_num

/-! ## Calibration pipeline (`sentinel1_dataset.py`, claims C3 to C6)

`_apply_calibration_lut` computes `res = np.abs(digital_number) ** 2 / lut ** 2`
then `res = res.where(res > 0)`: positions failing the predicate become
not-a-number, embedded as `Option.none`. -/

/-- Elementwise `_apply_calibration_lut`: the physical value at one pixel,
`none` standing for the not-a-number produced by `res.where(res > 0)`. -/
def apply_calibration (dn lut : ℚ) : Option ℚ :=
  let res := |dn| ^ 2 / lut ^ 2
  if 0 < res then some res else none

/-- `_apply_calibration_lut` over whole aligned arrays. -/
def apply_calibration_lut (dns luts : List ℚ) : List (Option ℚ) :=
  List.zipWith apply_calibration dns luts

/-- A calibrated pixel is never the numeric value 0. -/
theorem apply_calibration_never_zero (dn lut : ℚ) :
    apply_calibration dn lut ≠ some 0 := by
  have hdef : apply_calibration dn lut
      = if 0 < |dn| ^ 2 / lut ^ 2 then some (|dn| ^ 2 / lut ^ 2) else none := rfl
  rw [hdef]
  split
  · next h =>
    intro heq
    rw [Option.some.injEq] at heq
    exact (ne_of_gt h) heq
  · simp

/-- A zero digital number calibrates to not-a-number. -/
theorem apply_calibration_of_zero (lut : ℚ) : apply_calibration 0 lut = none := by
  have hdef : apply_calibration 0 lut
      = if 0 < |(0 : ℚ)| ^ 2 / lut ^ 2 then some (|(0 : ℚ)| ^ 2 / lut ^ 2) else none :=
    rfl
  rw [hdef]
  simp

/-- A calibrated pixel that is numeric carries exactly `|dn|^2 / lut^2`. -/
theorem apply_calibration_pos_val (dn lut : ℚ) (h : 0 < |dn| ^ 2 / lut ^ 2) :
    apply_calibration dn lut = some (|dn| ^ 2 / lut ^ 2) := by
  have hdef : apply_calibration dn lut
      = if 0 < |dn| ^ 2 / lut ^ 2 then some (|dn| ^ 2 / lut ^ 2) else none := rfl
  rw [hdef, if_pos h]

/-- C3: applying the calibration LUT yields `|digital_number|^2 / lut^2`, and
every position whose digital number is exactly zero is replaced by
not-a-number in the output, never kept as a numeric 0. -/
theorem apply_calibration_zero_to_nan (dns luts : List ℚ) (i : ℕ)
    (h : i < (apply_calibration_lut dns luts).length) :
    (apply_calibration_lut dns luts).getD i none ≠ some 0 ∧
    (dns.getD i 0 = 0 → (apply_calibration_lut dns luts).getD i none = none) ∧
    (0 < |dns.getD i 0| ^ 2 / (luts.getD i 0) ^ 2 →
      (apply_calibration_lut dns luts).getD i none
        = some (|dns.getD i 0| ^ 2 / (luts.getD i 0) ^ 2)) := by
  induction dns generalizing luts i with
  | nil => simp [apply_calibration_lut] at h
  | cons d ds ih =>
    cases luts with
    | nil => simp [apply_calibration_lut] at h
    | cons u us =>
      cases i with
      | zero =>
        refine ⟨?_, ?_, ?_⟩
        · simpa [apply_calibration_lut] using apply_calibration_never_zero d u
        · intro hd
          simp only [List.getD_cons_zero] at hd
          simp only [apply_calibration_lut, List.zipWith_cons_cons,
            List.getD_cons_zero]
          rw [hd]
          exact apply_calibration_of_zero u
        · intro hpos
          simp only [List.getD_cons_zero] at hpos ⊢
          simp only [apply_calibration_lut, List.zipWith_cons_cons,
            List.getD_cons_zero]
          exact apply_calibration_pos_val d u hpos
      | succ n =>
        have h2 : n < (apply_calibration_lut ds us).length := by
          simpa [apply_calibration_lut] using h
        have hih := ih us n h2
        simpa [apply_calibration_lut, List.zipWith_cons_cons,
          List.getD_cons_succ] using hih

/-- Witness for the calibration zero-fill semantics on a concrete array. -/
theorem apply_calibration_zero_to_nan_witness :
    (apply_calibration_lut [0, 2] [1, 1]).getD 0 none = none ∧
    (apply_calibration_lut [0, 2] [1, 1]).getD 1 none ≠ some 0 :=
  ⟨(apply_calibration_zero_to_nan [0, 2] [1, 1] 0
      (by norm_num [apply_calibration_lut])).2.1 (by norm_num),
   (apply_calibration_zero_to_nan [0, 2] [1, 1] 1
      (by norm_num [apply_calibration_lut])).1⟩

/-- `reverse_calibration_lut`: from a physical value back to the digital
number, `dn = np.sqrt(var * lut ** 2)` (the square root forces a real-valued
embedding). -/
noncomputable def reverse_calibration_lut (v lut : ℚ) : ℝ :=
  Real.sqrt ((v : ℝ) * (lut : ℝ) ^ 2)

/-- C4: for strictly positive digital-number magnitude and LUT value,
`reverse_calibration (apply_calibration dn lut) lut = |dn|`: the magnitude
round-trips exactly (phase of a complex input is not recovered). -/
theorem calibration_roundtrip (dn lut : ℚ) (hdn : 0 < dn) (hlut : 0 < lut) :
    (apply_calibration dn lut).map (fun v => reverse_calibration_lut v lut)
      = some |(dn : ℝ)| := by
  have habs : |dn| = dn := abs_of_pos hdn
  have hpos : (0 : ℚ) < dn ^ 2 / lut ^ 2 := by positivity
  have happ : apply_calibration dn lut = some (dn ^ 2 / lut ^ 2) := by
    have := apply_calibration_pos_val dn lut (by rw [habs]; exact hpos)
    rwa [habs] at this
  rw [happ]
  simp only [Option.map_some']
  unfold reverse_calibration_lut
  have hl : (lut : ℝ) ≠ 0 := by
    exact_mod_cast ne_of_gt hlut
  have hcast : ((dn ^ 2 / lut ^ 2 : ℚ) : ℝ) * (lut : ℝ) ^ 2 = (dn : ℝ) ^ 2 := by
    push_cast
    field_simp
  rw [hcast, Real.sqrt_sq_eq_abs]

/-- Witness for the calibration round trip at `dn = 3`, `lut = 2`. -/
theorem calibration_roundtrip_witness :
    (apply_calibration 3 2).map (fun v => reverse_calibration_lut v 2)
      = some |((3 : ℚ) : ℝ)| :=
  calibration_roundtrip 3 2 (by norm_num) (by norm_num)

/-- The subtraction-plus-clip step of `_add_denoised`:
`denoised = raw - noise`, clipped at 0 when `clip` is set. -/
def denoise_sub (raw noise : ℚ) (clip : Bool) : ℚ :=
  let denoised := raw - noise
  if clip then max denoised 0 else denoised

/-- Decision logic of `_add_denoised` for one variable, given the
per-polarization denoised flags of the source product
(`self.s1meta.denoised.values()`): alias when all polarizations are already
denoised, `NotImplementedError` when they disagree, subtraction otherwise. -/
def add_denoised_var (flags : List Bool) (raw noise : ℚ) (clip : Bool) :
    Except String ℚ :=
  if flags.all id then Except.ok raw
  else if flags.toFinset.card ≠ 1 then
    Except.error "semi denoised products not yet implemented"
  else Except.ok (denoise_sub raw noise clip)

/-- C5: when every polarization reports the product as already denoised, the
denoised variable is an alias of the raw one (no subtraction); when the
polarizations disagree, construction fails loudly with
`NotImplementedError`; otherwise `denoised = raw - noise_equivalent`. -/
theorem add_denoised_semantics (flags : List Bool) (raw noise : ℚ) (clip : Bool) :
    (flags.all id = true → add_denoised_var flags raw noise clip = Except.ok raw) ∧
    (true ∈ flags → false ∈ flags →
      add_denoised_var flags raw noise clip
        = Except.error "semi denoised products not yet implemented") ∧
    (flags ≠ [] → true ∉ flags →
      add_denoised_var flags raw noise clip
        = Except.ok (denoise_sub raw noise clip)) := by
  refine ⟨?_, ?_, ?_⟩
  · intro h
    unfold add_denoised_var
    rw [if_pos h]
  · intro ht hf
    have hall : ¬ (flags.all id = true) := by
      rw [List.all_eq_true]
      intro hcl
      exact Bool.false_ne_true (hcl false hf)
    have hcard : flags.toFinset.card ≠ 1 := by
      have h2 : 1 < flags.toFinset.card := by
        rw [Finset.one_lt_card]
        exact ⟨true, List.mem_toFinset.mpr ht, false, List.mem_toFinset.mpr hf,
          by simp⟩
      omega
    unfold add_denoised_var
    rw [if_neg hall, if_pos hcard]
  · intro hne hnt
    have hfalse : ∀ b ∈ flags, b = false := by
      intro b hb
      cases b
      · rfl
      · exact absurd hb hnt
    have hf : false ∈ flags := by
      obtain ⟨b, bs, rfl⟩ := List.exists_cons_of_ne_nil hne
      have hb := hfalse b (List.mem_cons_self b bs)
      rw [← hb]
      exact List.mem_cons_self b bs
    have hall : ¬ (flags.all id = true) := by
      rw [List.all_eq_true]
      intro hcl
      exact Bool.false_ne_true (hcl false hf)
    have hset : flags.toFinset = {false} := by
      apply Finset.ext
      intro b
      simp only [List.mem_toFinset, Finset.mem_singleton]
      constructor
      · intro hb
        exact hfalse b hb
      · intro hb
        rw [hb]
        exact hf
    unfold add_denoised_var
    rw [if_neg hall, if_neg (by simp [hset])]

/-- Witness for the denoising decision logic on concrete flag lists. -/
theorem add_denoised_semantics_witness :
    add_denoised_var [true, true] 5 2 true = Except.ok 5 ∧
    add_denoised_var [true, false] 5 2 true
      = Except.error "semi denoised products not yet implemented" ∧
    add_denoised_var [false, false] 5 2 true
      = Except.ok (denoise_sub 5 2 true) :=
  ⟨(add_denoised_semantics [true, true] 5 2 true).1 (by decide),
   (add_denoised_semantics [true, false] 5 2 true).2.1 (by decide) (by decide),
   (add_denoised_semantics [false, false] 5 2 true).2.2 (by decide) (by decide)⟩

/-- C6: with clipping enabled, a raw value strictly below its
noise-equivalent denoises to exactly 0, and every clipped denoised output is
nonnegative. -/
theorem denoise_clip_nonneg (raw noise : ℚ) :
    (raw < noise → denoise_sub raw noise true = 0) ∧
    0 ≤ denoise_sub raw noise true := by
  have hdef : denoise_sub raw noise true = max (raw - noise) 0 := rfl
  rw [hdef]
  constructor
  · intro h
    rw [max_eq_right]
    linarith
  · exact le_max_right _ _

/-- Witness for the denoising clip at concrete values. -/
theorem denoise_clip_nonneg_witness :
    denoise_sub 1 2 true = 0 ∧ 0 ≤ denoise_sub 5 2 true :=
  ⟨(denoise_clip_nonneg 1 2).1 (by norm_num),
   (denoise_clip_nonneg 5 2).2⟩

/-! ## Dataset-level inverse lookup (`SentinelDataset.ll2coords`, claim C8)

The continuous `(atrack, xtrack)` produced by `self.s1meta.ll2coords`
(defined in `sentinel1_meta.py`, outside the provided sources) enters the
snapping stage as data; the decisive tolerance / `KeyError` handling below is
from `sentinel1_dataset.py`.  `np.nan` results are embedded as `none`. -/

/-- `np.diff`: successive differences of a coordinate vector. -/
def npDiff (l : List ℚ) : List ℚ :=
  List.zipWith (fun p q => q - p) l l.tail

/-- Insertion into a sorted list (ascending). -/
def insertQ (x : ℚ) : List ℚ → List ℚ
  | [] => [x]
  | y :: ys => if x ≤ y then x :: y :: ys else y :: insertQ x ys

/-- Ascending sort, as used by the percentile computation. -/
def sortQ (l : List ℚ) : List ℚ :=
  l.foldr insertQ []

/-- `np.percentile(l, 90)` with the default linear interpolation method:
position `0.9 * (n - 1)` in the sorted data, interpolated between the two
surrounding order statistics. -/
def percentile90 (l : List ℚ) : ℚ :=
  let s := sortQ l
  let n := s.length
  let pos : ℚ := 9 * ((n : ℚ) - 1) / 10
  let i : ℕ := (⌊pos⌋).toNat
  let lo := s.getD i 0
  let hi := s.getD (i + 1) lo
  lo + (pos - (i : ℚ)) * (hi - lo)

/-- `tolerance = np.max([np.percentile(np.diff(ds[c]), 90) / 2 for c in
['atrack', 'xtrack']]) + 1`. -/
def dataset_tolerance (atracks xtracks : List ℚ) : ℚ :=
  max (percentile90 (npDiff atracks) / 2) (percentile90 (npDiff xtracks) / 2) + 1

/-- One step of the nearest-coordinate scan of `sel(method='nearest')`. -/
def nearestStep (t : ℚ) (acc : Option ℚ) (c : ℚ) : Option ℚ :=
  match acc with
  | none => some c
  | some v => if |c - t| < |v - t| then some c else acc

/-- Value of the coordinate vector nearest to the target `t`
(`sel(method='nearest')` before the tolerance check). -/
def nearestVal (coords : List ℚ) (t : ℚ) : Option ℚ :=
  coords.foldl (nearestStep t) none

/-- `SentinelDataset.ll2coords` (scalar path, after the meta-level inverse):
snap both coordinates to the nearest dataset coordinate; if either misses by
more than the tolerance, `Dataset.sel` raises `KeyError`, which the method
catches and converts into not-a-number for both outputs. -/
def dataset_ll2coords (atracks xtracks : List ℚ) (a x : ℚ) :
    Option ℚ × Option ℚ :=
  let tol := dataset_tolerance atracks xtracks
  match nearestVal atracks a, nearestVal xtracks x with
  | some va, some vx =>
    if |va - a| ≤ tol ∧ |vx - x| ≤ tol then (some va, some vx) else (none, none)
  | _, _ => (none, none)

/-- The nearest-scan result is always one of the scanned coordinates. -/
theorem nearestVal_mem_aux (t : ℚ) :
    ∀ (l : List ℚ) (acc : Option ℚ) (b : ℚ),
      l.foldl (nearestStep t) acc = some b → b ∈ l ∨ acc = some b := by
  intro l
  induction l with
  | nil =>
    intro acc b h
    exact Or.inr h
  | cons c cs ih =>
    intro acc b h
    rw [List.foldl_cons] at h
    rcases ih (nearestStep t acc c) b h with hmem | hacc
    · exact Or.inl (List.mem_cons_of_mem c hmem)
    · cases acc with
      | none =>
        have hred : nearestStep t none c = some c := rfl
        rw [hred, Option.some.injEq] at hacc
        exact Or.inl (hacc ▸ List.mem_cons_self c cs)
      | some v =>
        by_cases hlt : |c - t| < |v - t|
        · have hred : nearestStep t (some v) c = some c := by
            simp [nearestStep, hlt]
          rw [hred, Option.some.injEq] at hacc
          exact Or.inl (hacc ▸ List.mem_cons_self c cs)
        · have hred : nearestStep t (some v) c = some v := by
            simp [nearestStep, hlt]
          rw [hred] at hacc
          exact Or.inr hacc

/-- The nearest coordinate belongs to the coordinate vector. -/
theorem nearestVal_mem (coords : List ℚ) (t b : ℚ)
    (h : nearestVal coords t = some b) : b ∈ coords := by
  rcases nearestVal_mem_aux t coords none b h with hm | hc
  · exact hm
  · exact absurd hc (by simp)

/-- C8: when the nearest-pixel lookup of either coordinate falls outside the
tolerance window, the dataset-level `ll2coords` returns not-a-number for both
coordinates (data, not an exception). -/
theorem dataset_ll2coords_out_of_tolerance (atracks xtracks : List ℚ) (a x : ℚ)
    (h : (∀ c ∈ atracks, dataset_tolerance atracks xtracks < |c - a|) ∨
         (∀ c ∈ xtracks, dataset_tolerance atracks xtracks < |c - x|)) :
    dataset_ll2coords atracks xtracks a x = (none, none) := by
  cases hA : nearestVal atracks a with
  | none => simp [dataset_ll2coords, hA]
  | some va =>
    cases hX : nearestVal xtracks x with
    | none => simp [dataset_ll2coords, hA, hX]
    | some vx =>
      have hnot : ¬ (|va - a| ≤ dataset_tolerance atracks xtracks ∧
          |vx - x| ≤ dataset_tolerance atracks xtracks) := by
        rintro ⟨h1, h2⟩
        rcases h with hl | hr
        · exact absurd h1 (not_le.mpr (hl va (nearestVal_mem atracks a va hA)))
        · exact absurd h2 (not_le.mpr (hr vx (nearestVal_mem xtracks x vx hX)))
      simp [dataset_ll2coords, hA, hX, hnot]

/-- Witness for the out-of-tolerance lookup on a concrete dataset grid. -/
theorem dataset_ll2coords_out_of_tolerance_witness :
    dataset_ll2coords [0, 1, 2] [0, 1, 2] 10 1 = (none, none) := by
  apply dataset_ll2coords_out_of_tolerance
  left
  intro c hc
  have htol : dataset_tolerance [0, 1, 2] [0, 1, 2] = 3 / 2 := by
    norm_num [dataset_tolerance, percentile90, sortQ, insertQ, npDiff]
  rw [htol]
  simp only [List.mem_cons, List.not_mem_nil, or_false] at hc
  rcases hc with rfl | rfl | rfl <;> norm_num

/-! ## Scalar / sequence shape contract of `coords2ll` (claim C10)

The default pointwise path of `RadarSat2Meta.coords2ll` computes its results
as numpy arrays (spline `.ev`), then adjusts them to the shape of the input:
`scalar = not hasattr(lines, '__iter__')`; a scalar input turns an iterable
result into `lon.item()`; an iterable result whose Python type differs from
`type(lines)` is converted with `type(lines)(lon)`.  The Python value
universe relevant here is a float scalar, a numpy `ndarray`, or a `list`. -/

/-- Python type tags of the values flowing through the shape postlude. -/
inductive PyTag
  | float
  | ndarray
  | pylist
deriving DecidableEq

/-- A Python value entering or leaving `coords2ll`. -/
inductive PyObj
  | float (q : ℚ)
  | ndarray (xs : List ℚ)
  | pylist (xs : List ℚ)
deriving DecidableEq

/-- `hasattr(value, '__iter__')`: false for a float, true for sequences. -/
def PyObj.hasIter : PyObj → Bool
  | .float _ => false
  | .ndarray _ => true
  | .pylist _ => true

/-- `type(value)`. -/
def PyObj.tag : PyObj → PyTag
  | .float _ => PyTag.float
  | .ndarray _ => PyTag.ndarray
  | .pylist _ => PyTag.pylist

/-- Elementwise content of a value. -/
def PyObj.values : PyObj → List ℚ
  | .float q => [q]
  | .ndarray xs => xs
  | .pylist xs => xs

/-- `value.item()`: the single element of a one-element array. -/
def PyObj.item (o : PyObj) : ℚ :=
  o.values.headD 0

/-- `type(lines)(value)`: rebuild `value` with the constructor of the target
Python type. -/
def convertTo (t : PyTag) (xs : List ℚ) : PyObj :=
  match t with
  | PyTag.float => PyObj.float (xs.headD 0)
  | PyTag.ndarray => PyObj.ndarray xs
  | PyTag.pylist => PyObj.pylist xs

/-- The shape postlude of `coords2ll` applied to one result (`lon` or `lat`):
`if scalar and hasattr(lon, '__iter__'): lon = lon.item()` followed by
`if hasattr(lon, '__iter__') and type(lon) is not type(lines):
lon = type(lines)(lon)`. -/
def coords2ll_postlude (lines res : PyObj) : PyObj :=
  let scalar := !lines.hasIter
  let r1 := if scalar && res.hasIter then PyObj.float res.item else res
  if r1.hasIter && !(r1.tag == lines.tag) then convertTo lines.tag r1.values
  else r1

/-- `RadarSat2Meta.coords2ll` on the default pointwise exact path, tracking
Python value shapes: both spline evaluations produce numpy arrays over the
paired input coordinates, then each passes through the shape postlude. -/
def coords2ll_py (m : RS2Meta) (lines samples : PyObj) : PyObj × PyObj :=
  let pairs := List.zipWith (fun a b => coords2ll_ev m a b) lines.values
    samples.values
  let lon := PyObj.ndarray (pairs.map Prod.fst)
  let lat := PyObj.ndarray (pairs.map Prod.snd)
  (coords2ll_postlude lines lon, coords2ll_postlude lines lat)

/-- C10: `coords2ll` preserves the shape and type of its coordinate inputs:
scalar inputs yield scalar longitude and latitude (the exact interpolated
values, not arrays), and sequence inputs yield sequences of the same Python
type as the input `lines`, carrying the elementwise results. -/
theorem coords2ll_shape_contract (m : RS2Meta) :
    (∀ q s : ℚ, coords2ll_py m (PyObj.float q) (PyObj.float s)
      = (PyObj.float (coords2ll_ev m q s).1, PyObj.float (coords2ll_ev m q s).2)) ∧
    (∀ ls ss : List ℚ, coords2ll_py m (PyObj.pylist ls) (PyObj.pylist ss)
      = (PyObj.pylist ((List.zipWith (fun a b => coords2ll_ev m a b) ls ss).map
            Prod.fst),
         PyObj.pylist ((List.zipWith (fun a b => coords2ll_ev m a b) ls ss).map
            Prod.snd))) ∧
    (∀ ls ss : List ℚ, coords2ll_py m (PyObj.ndarray ls) (PyObj.ndarray ss)
      = (PyObj.ndarray ((List.zipWith (fun a b => coords2ll_ev m a b) ls ss).map
            Prod.fst),
         PyObj.ndarray ((List.zipWith (fun a b => coords2ll_ev m a b) ls ss).map
            Prod.snd))) :=
  ⟨fun q s => rfl, fun ls ss => rfl, fun ls ss => rfl⟩
